import Mathlib

set_option maxHeartbeats 1000000

/-! Shallow embedding of the MuseOS generation pipeline.  The definitions
below are translated from src/api/index.ts (the single-file API used by the
orchestrator and the cron trigger) and, where noted, from
src/server/routes.ts.  Language-model calls, the scraping service and the
database are modelled as explicit oracle parameters; JavaScript nullish and
truthy coalescing are made explicit. -/

/-- A JavaScript value as it may appear in a duck-typed vendor payload field
(the ApifyPost interface carries an index signature allowing any value). -/
inductive JsVal where
  | vstr (s : String)
  | vnum (n : Int)
  | vbool (b : Bool)
deriving DecidableEq, Repr

/-- JavaScript String(x) conversion for the values we model
(used by extractPostText when the chosen field is not a string). -/
def strOfVal : JsVal → String
  | .vstr s => s
  | .vnum n => toString n
  | .vbool b => if b then "true" else "false"

/-- JavaScript substring(0, n): the first n characters of a string. -/
def jsSubstring (s : String) (n : Nat) : String := String.mk (s.data.take n)

/-- JavaScript trim(): drop whitespace from both ends of a string. -/
def jsTrim (s : String) : String :=
  String.mk (((s.data.dropWhile Char.isWhitespace).reverse.dropWhile
    Char.isWhitespace).reverse)

/-- JavaScript logical-or over an optional string operand: both an absent
(undefined) value and the empty string are falsy and fall through. -/
def jsOrStr : Option String → String → String
  | some s, d => if s = "" then d else s
  | none, d => d

/-- A candidate post from the scraping vendor, as typed by the ApifyPost
interface of src/api/index.ts: optional id/url, several text-field variants
and all known engagement field variants.  Absent fields are none. -/
structure ApifyPost where
  id : Option String := none
  url : Option String := none
  postUrl : Option String := none
  text : Option JsVal := none
  postText : Option JsVal := none
  content : Option JsVal := none
  body : Option JsVal := none
  description : Option JsVal := none
  likesCount : Option Int := none
  likesNumber : Option Int := none
  numLikes : Option Int := none
  reactionCount : Option Int := none
  totalReactionCount : Option Int := none
  commentsCount : Option Int := none
  commentsNumber : Option Int := none
  numComments : Option Int := none
  commentCount : Option Int := none
  sharesCount : Option Int := none
  sharesNumber : Option Int := none
  numShares : Option Int := none
  shareCount : Option Int := none
deriving DecidableEq, Repr

/-- extractPostText of src/api/index.ts: nullish-coalesce over
text ?? postText ?? content ?? body ?? description ?? two quotes, convert
non-strings with String(), trim, then substring(0, 1500). -/
def extractPostText (p : ApifyPost) : String :=
  let raw := ((p.text <|> p.postText <|> p.content <|> p.body <|> p.description).getD (.vstr ""))
  jsSubstring (jsTrim (strOfVal raw)) 1500

/-- The three engagement metrics distinguished by getMetric. -/
inductive MetricKind where
  | likes
  | comments
  | shares
deriving DecidableEq, Repr

/-- getMetric of src/api/index.ts: nullish-coalesce over the known vendor
field variants of each metric, defaulting to 0. -/
def getMetric (p : ApifyPost) : MetricKind → Int
  | .likes =>
      (p.likesCount <|> p.likesNumber <|> p.numLikes <|> p.reactionCount <|>
        p.totalReactionCount).getD 0
  | .comments =>
      (p.commentsCount <|> p.commentsNumber <|> p.numComments <|> p.commentCount).getD 0
  | .shares =>
      (p.sharesCount <|> p.sharesNumber <|> p.numShares <|> p.shareCount).getD 0

/-- The filter applied inside evaluatePostEngagement: text length at least 50
and likes plus comments strictly above 2. -/
def meaningfulPost (p : ApifyPost) : Bool :=
  if (extractPostText p).length < 50 then false
  else decide (getMetric p .likes + getMetric p .comments > 2)

/-- The comment-to-like ratio used by the deterministic fallback sort:
comments divided by (likes or 1, since 0 is falsy in JavaScript). -/
def ratioOf (p : ApifyPost) : Rat :=
  (getMetric p .comments : Rat) /
    (if getMetric p .likes = 0 then 1 else (getMetric p .likes : Rat))

/-- The deterministic fallback of evaluatePostEngagement: stable sort by
comment-to-like ratio, descending. -/
def fallbackSort (l : List ApifyPost) : List ApifyPost :=
  l.mergeSort (fun a b => decide (ratioOf b ≤ ratioOf a))

/-- JavaScript array indexing l[i] for a possibly negative or out-of-range
index: undefined is modelled as none. -/
def jsIndex (l : List α) (i : Int) : Option α :=
  if i < 0 then none else l.get? i.toNat

/-- The AI-selection path of evaluatePostEngagement:
indices.map(i mapsto meaningfulPosts[i]).filter(Boolean) - undefined entries
produced by invalid indices are dropped by the truthiness filter. -/
def aiSelect (indices : List Int) (meaningful : List ApifyPost) : List ApifyPost :=
  indices.filterMap (fun i => jsIndex meaningful i)

/-- Outcome of the relevance-scoring model call: failure covers a thrown
call, malformed JSON and a non-array indices field (all caught by the same
try block); indices carries the parsed index list (the code falls back when
it is empty, throwing inside the same try block). -/
inductive AiReply where
  | failure
  | indices (is : List Int)
deriving DecidableEq, Repr

/-- Number of indices carried by a model reply (0 on failure). -/
def replyIndicesLen : AiReply → Nat
  | .failure => 0
  | .indices is => is.length

/-- evaluatePostEngagement of src/api/index.ts.  cfg is whether the OpenAI
client is configured; reply is the model-call oracle.  Paths: empty input,
unconfigured client (first 5), all-filtered fallback (first 3), AI selection,
and the deterministic ratio-sort fallback (top 5) on failure or an empty
index list. -/
def evaluatePostEngagement (cfg : Bool) (reply : AiReply) (posts : List ApifyPost) :
    List ApifyPost :=
  if posts.isEmpty then []
  else if !cfg then posts.take 5
  else if (posts.filter meaningfulPost).isEmpty then posts.take 3
  else
    match reply with
    | .failure => (fallbackSort (posts.filter meaningfulPost)).take 5
    | .indices is =>
        if is.isEmpty then (fallbackSort (posts.filter meaningfulPost)).take 5
        else aiSelect is (posts.filter meaningfulPost)

/-- A candidate post as typed in src/server/routes.ts (string-typed text
fields; no body variant there). -/
structure RoutesPost where
  text : Option String := none
  postText : Option String := none
  content : Option String := none
  description : Option String := none
deriving DecidableEq, Repr

/-- extractPostText of src/server/routes.ts: truthy-or over
text, postText, content, description (empty strings fall through), then
trim and substring(0, 500). -/
def routesExtractPostText (p : RoutesPost) : String :=
  jsSubstring (jsTrim (jsOrStr p.text (jsOrStr p.postText (jsOrStr p.content
    (jsOrStr p.description ""))))) 500

/-- Modelled from the specification text of section 4.2 and claim C3 (for
refinement comparison only): select the first non-empty field in the
priority order of extractPostText in src/api/index.ts, then trim and
truncate. -/
def specExtractText (p : ApifyPost) : String :=
  let pick : Option JsVal → Option String := fun o =>
    match o with
    | some v => if strOfVal v = "" then none else some (strOfVal v)
    | none => none
  jsSubstring (jsTrim ((pick p.text <|> pick p.postText <|> pick p.content <|> pick p.body <|>
      pick p.description).getD "")) 1500

/-- The deduplication key of executeWorkflowCore:
p.id or p.url or extractPostText(p).substring(0, 50), with JavaScript
truthy-or (an empty-string id or url falls through). -/
def postKey (p : ApifyPost) : String :=
  jsOrStr p.id (jsOrStr p.url (jsSubstring (extractPostText p) 50))

/-- Modelled from the specification text of claim C4 and section 4.6 step 3
(for refinement comparison only): the key is the URL when present, else the
ID, else a text prefix. -/
def specPostKey (p : ApifyPost) : String :=
  jsOrStr p.url (jsOrStr p.id (jsSubstring (extractPostText p) 50))

/-- The dedup filter of executeWorkflowCore over one round of fetched posts:
a post whose key is already in the running seen set is dropped; a kept
post's key is added to the set (so duplicates within the same batch are also
dropped).  Returns the kept posts and the updated seen set. -/
def dedupFilter (seen : List String) : List ApifyPost → List ApifyPost × List String
  | [] => ([], seen)
  | p :: rest =>
      let k := postKey p
      if k ∈ seen then dedupFilter seen rest
      else
        let out := dedupFilter (seen ++ [k]) rest
        (p :: out.1, out.2)

/-- Modelled from the specification (for refinement comparison only): the
same dedup filter but keyed as the specification describes, URL first. -/
def specDedupFilter (seen : List String) : List ApifyPost → List ApifyPost × List String
  | [] => ([], seen)
  | p :: rest =>
      let k := specPostKey p
      if k ∈ seen then specDedupFilter seen rest
      else
        let out := specDedupFilter (seen ++ [k]) rest
        (p :: out.1, out.2)

/-- The per-round oracle for executeWorkflowCore: the flattened posts the
scraping calls return this round, the relevance-scoring model reply, and
whether the per-candidate generate chain (clean, structure, rewrite, insert)
fulfills for a given post. -/
structure RoundOracle where
  fetched : List ApifyPost
  reply : AiReply
  genOk : ApifyPost → Bool

/-- The mutable state of the smart buffer loop: number of saved results,
the running seen-key set, and the number of loop-body entries performed. -/
structure WfState where
  saved : Nat
  seen : List String
  rounds : Nat
deriving Repr

/-- Collecting the settled per-candidate results: a fulfilled result is
appended only while the saved count is still below the target. -/
def collectResults (target : Int) : List Bool → Nat → Nat
  | [], saved => saved
  | r :: rest, saved =>
      collectResults target rest
        (if r && decide ((saved : Int) < target) then saved + 1 else saved)

/-- MAX_ROUNDS of executeWorkflowCore. -/
def MAX_ROUNDS : Nat := 2

/-- The per-candidate outcomes of one full round body: score the deduped
posts, keep at most remaining of them, drop those whose extracted text is
under 30 characters, and ask the generate oracle for each survivor. -/
def roundResults (cfg : Bool) (target : Int) (o : RoundOracle) (st : WfState) : List Bool :=
  ((((evaluatePostEngagement cfg o.reply (dedupFilter st.seen o.fetched).1).take
      (target - (st.saved : Int)).toNat).filter
      (fun p => !decide ((extractPostText p).length < 30))).map o.genOk)

/-- The smart buffer loop of executeWorkflowCore, recursing over the list of
per-round oracles (one entry per potential round).  Mirrors the source: stop
when the remaining count is not positive; fetch and dedup; stop when nothing
new survives dedup; score; continue to the next round when the scorer
returns nothing; otherwise process at most remaining candidates whose text
is at least 30 characters, and collect fulfilled results up to the target. -/
def bufferLoop (cfg : Bool) (target : Int) : List RoundOracle → WfState → WfState
  | [], st => st
  | o :: rest, st =>
      if target - (st.saved : Int) ≤ 0 then
        { st with rounds := st.rounds + 1 }
      else if (dedupFilter st.seen o.fetched).1.isEmpty then
        { saved := st.saved, seen := (dedupFilter st.seen o.fetched).2,
          rounds := st.rounds + 1 }
      else if (evaluatePostEngagement cfg o.reply (dedupFilter st.seen o.fetched).1).isEmpty then
        bufferLoop cfg target rest
          { saved := st.saved, seen := (dedupFilter st.seen o.fetched).2,
            rounds := st.rounds + 1 }
      else
        bufferLoop cfg target rest
          { saved := collectResults target (roundResults cfg target o st) st.saved,
            seen := (dedupFilter st.seen o.fetched).2,
            rounds := st.rounds + 1 }

/-- The effective target of executeWorkflowCore:
Math.min(Number(count) || 1, 10).  none models a non-numeric count (NaN is
falsy), and 0 is falsy; any other number goes to min with 10 unchanged. -/
def targetCount (count : Option Int) : Int :=
  match count with
  | none => 1
  | some c => if c = 0 then 1 else min c 10

/-- The buffer-loop portion of executeWorkflowCore, run for MAX_ROUNDS
rounds from the empty initial state. -/
def executeWorkflowCore (cfg : Bool) (count : Option Int) (o1 o2 : RoundOracle) : WfState :=
  bufferLoop cfg (targetCount count) [o1, o2] ⟨0, [], 0⟩

/-- The count clamp of the schedule-configuration endpoint (POST /schedule):
Math.max(1, Math.min(count, 20)). -/
def scheduleCountClamp (c : Int) : Int :=
  max 1 (min c 20)

/-- regeneratePost of src/api/index.ts, with the model call as an oracle:
error models a thrown call; ok carries the possibly null message content
(null becomes the empty string via truthy-or).  When the OpenAI client is
unconfigured or the call throws, the original text is returned unchanged.
The structure string and voice instructions shape the prompt only. -/
def regeneratePost (cfg : Bool) (call : Except Unit (Option String))
    (struct : String) (original : String) (instructions : String) : String :=
  if !cfg then original
  else
    match call with
    | .error _ => original
    | .ok content => jsOrStr content ""

/-- An execution record row of the schedule_executions table, as the cron
trigger reads and writes it (timestamps in milliseconds). -/
structure ExecRecord where
  schedId : Nat
  executedAt : Int
  pending : Bool
deriving DecidableEq, Repr

/-- A schedules row as the cron trigger consumes it: the schedule id, the
hour parsed from its HH:MM time, and the configured source/count payload is
irrelevant to the dedup behaviour modelled here. -/
structure ScheduleRow where
  schedId : Nat
  timeHour : Nat
deriving DecidableEq, Repr

/-- One hour in milliseconds, as computed by the cron dedup guard. -/
def HOUR_MS : Int := 60 * 60 * 1000

/-- The cron dedup query: does an execution record for this schedule exist
with executed_at within the last rolling hour. -/
def hasRecentExecution (execs : List ExecRecord) (sid : Nat) (now : Int) : Bool :=
  execs.any (fun e => e.schedId == sid && decide (now - HOUR_MS ≤ e.executedAt))

/-- The observable per-schedule actions of the cron handler, in program
order. -/
inductive CronAct where
  | insertedPending
  | ranWorkflow
  | updatedRecord
  | updatedSchedule
deriving DecidableEq, Repr

/-- The per-schedule body of the GET /api/cron loop.  currentHour is the
hour of the current time converted to the schedule's timezone.  When the
truncated-to-hour times differ, the schedule is skipped; when a recent
execution record exists, it is skipped; otherwise a pending record is
inserted, the workflow runs, and the record and schedule are updated.
Returns the new execution table and the action trace in order. -/
def processSchedule (now : Int) (currentHour : Nat) (execs : List ExecRecord)
    (s : ScheduleRow) : List ExecRecord × List CronAct :=
  if s.timeHour ≠ currentHour then (execs, [])
  else if hasRecentExecution execs s.schedId now then (execs, [])
  else
    (execs ++ [⟨s.schedId, now, true⟩],
      [.insertedPending, .ranWorkflow, .updatedRecord, .updatedSchedule])

/-- The outcome of a GET /api/cron request: a 401 rejection before any
schedule is read, a 500 when the admin database client is unconfigured, or
a summary after folding the per-schedule body over every enabled schedule. -/
inductive CronOutcome where
  | unauthorized
  | misconfigured
  | ok (executed : Nat)
deriving DecidableEq, Repr

/-- The authorization gate of GET /api/cron: reject exactly when CRON_SECRET
is truthy (set and non-empty) and the Authorization header differs from
Bearer plus the secret. -/
def cronAuthRejects (secret : Option String) (authHeader : Option String) : Bool :=
  match secret with
  | none => false
  | some s => if s = "" then false else decide (authHeader ≠ some ("Bearer " ++ s))

/-- The GET /api/cron handler over the modelled state: the bearer check runs
first, then the admin-client check, then every enabled schedule is processed
in order with the execution table threaded through.  Returns the outcome and
the final execution table. -/
def cronHandler (secret authHeader : Option String) (adminCfg : Bool)
    (schedules : List ScheduleRow) (execs : List ExecRecord) (now : Int)
    (hourOf : ScheduleRow → Nat) : CronOutcome × List ExecRecord :=
  if cronAuthRejects secret authHeader then (.unauthorized, execs)
  else if !adminCfg then (.misconfigured, execs)
  else
    let final := schedules.foldl
      (fun acc s =>
        let step := processSchedule now (hourOf s) acc.1 s
        (step.1, acc.2 + (if CronAct.ranWorkflow ∈ step.2 then 1 else 0)))
      (execs, 0)
    (.ok final.2, final.1)

/-! Shared helper lemmas. -/

/-- The character count of a JavaScript substring(0, n) is at most n. -/
theorem jsSubstring_length_le (s : String) (n : Nat) : (jsSubstring s n).length ≤ n := by
  show (s.data.take n).length ≤ n
  simp [List.length_take]

/-- Taking a positive prefix of a non-empty list is non-empty. -/
theorem take_pos_ne_nil {α : Type} {l : List α} (h : l ≠ []) {n : Nat} (hn : 0 < n) :
    l.take n ≠ [] := by
  cases l with
  | nil => exact absurd rfl h
  | cons a t =>
      cases n with
      | zero => omega
      | succ m => simp

/-- The deterministic fallback sort preserves non-emptiness. -/
theorem fallbackSort_ne_nil {l : List ApifyPost} (h : l ≠ []) : fallbackSort l ≠ [] := by
  intro he
  apply h
  have hlen := @List.length_mergeSort _ (fun a b => decide (ratioOf b ≤ ratioOf a)) l
  rw [show l.mergeSort (fun a b => decide (ratioOf b ≤ ratioOf a)) = fallbackSort l from rfl,
    he] at hlen
  exact List.eq_nil_of_length_eq_zero hlen.symm

/-- A sample post text of more than 50 characters. -/
def sampleText : String :=
  "The quick brown fox jumps over the lazy dog near the quiet river bank."

/-- A concrete candidate post that passes the meaningful-post filter. -/
def mkPost (s : String) : ApifyPost :=
  { text := some (.vstr sampleText), likesCount := some 2, commentsCount := some 2,
    id := some s }

/-- Six distinct meaningful candidate posts. -/
def sixPosts : List ApifyPost :=
  [mkPost "p0", mkPost "p1", mkPost "p2", mkPost "p3", mkPost "p4", mkPost "p5"]

/-- Claim C1 counterexample: on the AI-selection path the Relevance Scorer
does not cap its output at 5 - with six meaningful input posts and a model
reply listing six valid indices, evaluatePostEngagement returns six posts. -/
theorem scorer_returns_six_counterexample :
    (evaluatePostEngagement true (.indices [0, 1, 2, 3, 4, 5]) sixPosts).length = 6 := by
  decide

/-- Claim C1 (amended): the Relevance Scorer returns at most
max 5 (number of model-returned indices) candidates: at most 5 on the
unconfigured-client, empty-after-filter and deterministic-fallback paths,
while the AI-selection path is bounded only by the length of the model's
index list. -/
theorem scorer_output_length_bound (cfg : Bool) (reply : AiReply) (posts : List ApifyPost) :
    (evaluatePostEngagement cfg reply posts).length ≤ max 5 (replyIndicesLen reply) := by
  have htake : ∀ (n : Nat) (l : List ApifyPost), (l.take n).length ≤ n := by
    intro n l
    simp [List.length_take]
  cases reply with
  | failure =>
      simp only [evaluatePostEngagement]
      split
      · simp
      · split
        · exact le_max_of_le_left (htake 5 posts)
        · split
          · exact le_max_of_le_left (le_trans (htake 3 posts) (by norm_num))
          · exact le_max_of_le_left (htake 5 _)
  | indices is =>
      simp only [evaluatePostEngagement]
      split
      · simp
      · split
        · exact le_max_of_le_left (htake 5 posts)
        · split
          · exact le_max_of_le_left (le_trans (htake 3 posts) (by norm_num))
          · split
            · exact le_max_of_le_left (htake 5 _)
            · exact le_max_of_le_right (List.length_filterMap_le _ is)

/-- Claim C10: every element of the Relevance Scorer output is an element of
its input list, for every model reply including out-of-range and negative
indices - invalid indices are dropped rather than fabricating entries. -/
theorem scorer_output_mem_input (cfg : Bool) (reply : AiReply) (posts : List ApifyPost)
    (p : ApifyPost) (hp : p ∈ evaluatePostEngagement cfg reply posts) : p ∈ posts := by
  have hfilter : ∀ q : ApifyPost, q ∈ posts.filter meaningfulPost → q ∈ posts :=
    fun q hq => List.mem_of_mem_filter hq
  cases reply with
  | failure =>
      simp only [evaluatePostEngagement] at hp
      split at hp
      · simp at hp
      · split at hp
        · exact List.mem_of_mem_take hp
        · split at hp
          · exact List.mem_of_mem_take hp
          · exact hfilter p (List.mem_mergeSort.mp (List.mem_of_mem_take hp))
  | indices is =>
      simp only [evaluatePostEngagement] at hp
      split at hp
      · simp at hp
      · split at hp
        · exact List.mem_of_mem_take hp
        · split at hp
          · exact List.mem_of_mem_take hp
          · split at hp
            · exact hfilter p (List.mem_mergeSort.mp (List.mem_of_mem_take hp))
            · obtain ⟨i, _, hi⟩ := List.mem_filterMap.mp hp
              have : p ∈ posts.filter meaningfulPost := by
                unfold jsIndex at hi
                split at hi
                · exact absurd hi (by simp)
                · exact List.get?_mem hi
              exact hfilter p this

/-- Claim C10 witness: a concrete run of the theorem. -/
theorem scorer_output_mem_input_witness : mkPost "p0" ∈ [mkPost "p0"] :=
  scorer_output_mem_input false .failure [mkPost "p0"] (mkPost "p0") (by decide)

/-- Claim C5 counterexample: with a single meaningful input post and a model
reply whose only index is out of range, the Relevance Scorer returns the
empty list even though its input was non-empty. -/
theorem scorer_empty_on_invalid_indices_counterexample :
    (evaluatePostEngagement true (.indices [5]) [mkPost "p0"]) = [] ∧
      ([mkPost "p0"] : List ApifyPost) ≠ [] := by
  constructor
  · decide
  · decide

/-- Claim C5 (amended): on a non-empty input the Relevance Scorer returns a
non-empty list - in particular the raw 3-prefix fallback when the filter
eliminates every candidate - except on the AI-selection path when the model
returns a non-empty index list every entry of which is an invalid index; in
that single case the result is empty. -/
theorem scorer_nonempty_unless_all_indices_invalid (cfg : Bool) (reply : AiReply)
    (posts : List ApifyPost) (hne : posts ≠ [])
    (hempty : evaluatePostEngagement cfg reply posts = []) :
    ∃ is, cfg = true ∧ reply = AiReply.indices is ∧ is ≠ [] ∧
      ∀ i ∈ is, jsIndex (posts.filter meaningfulPost) i = none := by
  cases posts with
  | nil => exact absurd rfl hne
  | cons a t =>
      cases cfg with
      | false =>
          exfalso
          have hred : evaluatePostEngagement false reply (a :: t) = (a :: t).take 5 := rfl
          rw [hred] at hempty
          exact take_pos_ne_nil hne (by norm_num) hempty
      | true =>
          by_cases hm : ((a :: t).filter meaningfulPost).isEmpty = true
          · exfalso
            have hred : evaluatePostEngagement true reply (a :: t) = (a :: t).take 3 := by
              cases reply <;> simp [evaluatePostEngagement, hm]
            rw [hred] at hempty
            exact take_pos_ne_nil hne (by norm_num) hempty
          · have hfne : (a :: t).filter meaningfulPost ≠ [] := by
              intro hnil
              exact hm (by simp [hnil])
            cases reply with
            | failure =>
                exfalso
                have hred : evaluatePostEngagement true .failure (a :: t)
                    = (fallbackSort ((a :: t).filter meaningfulPost)).take 5 := by
                  simp [evaluatePostEngagement, hm]
                rw [hred] at hempty
                exact take_pos_ne_nil (fallbackSort_ne_nil hfne) (by norm_num) hempty
            | indices is =>
                by_cases hi : is.isEmpty = true
                · exfalso
                  have hred : evaluatePostEngagement true (.indices is) (a :: t)
                      = (fallbackSort ((a :: t).filter meaningfulPost)).take 5 := by
                    simp [evaluatePostEngagement, hm, hi]
                  rw [hred] at hempty
                  exact take_pos_ne_nil (fallbackSort_ne_nil hfne) (by norm_num) hempty
                · have hred : evaluatePostEngagement true (.indices is) (a :: t)
                      = aiSelect is ((a :: t).filter meaningfulPost) := by
                    simp [evaluatePostEngagement, hm, hi]
                  rw [hred] at hempty
                  refine ⟨is, rfl, rfl, by simpa using hi, ?_⟩
                  intro i hmem
                  exact List.filterMap_eq_nil_iff.mp hempty i hmem

/-- Claim C5 (amended) witness: the theorem applied at the concrete input of
the counterexample. -/
theorem scorer_nonempty_unless_all_indices_invalid_witness :
    ∃ is, true = true ∧ AiReply.indices [5] = AiReply.indices is ∧ is ≠ [] ∧
      ∀ i ∈ is, jsIndex (([mkPost "p0"] : List ApifyPost).filter meaningfulPost) i = none :=
  scorer_nonempty_unless_all_indices_invalid true (.indices [5]) [mkPost "p0"]
    (by decide) (by decide)

/-- Claim C3 counterexample: extractPostText of src/api/index.ts does not
skip a present-but-empty higher-priority field - with an empty text field
and a content field holding hello it returns the empty string, while the
first-non-empty selection the claim describes returns hello. -/
theorem extract_empty_field_counterexample :
    extractPostText { text := some (.vstr ""), content := some (.vstr "hello") } = "" ∧
      specExtractText { text := some (.vstr ""), content := some (.vstr "hello") } = "hello" := by
  constructor
  · decide
  · decide

/-- Claim C3 (amended): extractPostText picks the first present
(non-nullish) field in the fixed priority order - a present-but-empty field
is chosen, not skipped - converts it to a string, trims, truncates to 1500
characters and always returns a defined string; the src/server/routes.ts
variant does skip empty strings (truthy-or) and truncates to 500. -/
theorem extract_text_first_present_field :
    (∀ p : ApifyPost, (extractPostText p).length ≤ 1500) ∧
    (∀ (p : ApifyPost) (v : JsVal), p.text = some v →
        extractPostText p = jsSubstring (jsTrim (strOfVal v)) 1500) ∧
    (∀ p : ApifyPost, p.text = none → p.postText = none → p.content = none →
        p.body = none → p.description = none → extractPostText p = "") ∧
    (∀ q : RoutesPost, q.text = some "" →
        routesExtractPostText q = routesExtractPostText { q with text := none }) ∧
    (∀ q : RoutesPost, (routesExtractPostText q).length ≤ 500) := by
  refine ⟨?_, ?_, ?_, ?_, ?_⟩
  · intro p
    exact jsSubstring_length_le _ 1500
  · intro p v h
    simp [extractPostText, h]
  · intro p h1 h2 h3 h4 h5
    simp [extractPostText, h1, h2, h3, h4, h5]
    decide
  · intro q h
    simp [routesExtractPostText, h, jsOrStr]
  · intro q
    exact jsSubstring_length_le _ 500

/-- Claim C3 (amended) witness: the theorem applied at the concrete post of
the counterexample, discharging the present-field hypothesis. -/
theorem extract_text_first_present_field_witness :
    extractPostText { text := some (.vstr ""), content := some (.vstr "hello") }
      = jsSubstring (jsTrim (strOfVal (.vstr ""))) 1500 :=
  extract_text_first_present_field.2.1
    { text := some (.vstr ""), content := some (.vstr "hello") } (.vstr "") rfl

/-- A post with an ID and a URL. -/
def dupA : ApifyPost := { id := some "a", url := some "u" }

/-- A post with a different ID but the same URL as dupA. -/
def dupB : ApifyPost := { id := some "b", url := some "u" }

/-- A post with the same ID as dupA but a different URL. -/
def dupA2 : ApifyPost := { id := some "a", url := some "w" }

/-- Claim C4 counterexample: the dedup key is the ID first, not the URL -
two posts sharing a URL but with distinct IDs are both kept by the
orchestrator dedup, while the URL-first dedup the claim describes discards
the second. -/
theorem dedup_key_order_counterexample :
    (dedupFilter [] [dupA, dupB]).1 = [dupA, dupB] ∧
      (specDedupFilter [] [dupA, dupB]).1 = [dupA] := by
  constructor
  · decide
  · decide

/-- The kept posts of a dedup round form a sublist of the fetched posts. -/
theorem dedup_kept_sublist (posts : List ApifyPost) :
    ∀ seen, List.Sublist (dedupFilter seen posts).1 posts := by
  induction posts with
  | nil => intro seen; simp [dedupFilter]
  | cons p rest ih =>
      intro seen
      by_cases hk : postKey p ∈ seen
      · simp only [dedupFilter, if_pos hk]
        exact (ih seen).cons p
      · simp only [dedupFilter, if_neg hk]
        exact (ih (seen ++ [postKey p])).cons₂ p

/-- No kept post's key was in the incoming seen set, and the kept keys are
pairwise distinct. -/
theorem dedup_kept_keys_fresh (posts : List ApifyPost) :
    ∀ seen, (∀ p ∈ (dedupFilter seen posts).1, postKey p ∉ seen) ∧
      ((dedupFilter seen posts).1.map postKey).Nodup := by
  induction posts with
  | nil => intro seen; simp [dedupFilter]
  | cons p rest ih =>
      intro seen
      by_cases hk : postKey p ∈ seen
      · simp only [dedupFilter, if_pos hk]
        exact ih seen
      · simp only [dedupFilter, if_neg hk]
        refine ⟨?_, ?_⟩
        · intro q hq
          rcases List.mem_cons.mp hq with hq | hq
          · rw [hq]; exact hk
          · intro hqs
            exact (ih (seen ++ [postKey p])).1 q hq (List.mem_append_left _ hqs)
        · refine List.nodup_cons.mpr ⟨?_, (ih (seen ++ [postKey p])).2⟩
          intro hmem
          obtain ⟨q, hq, hqk⟩ := List.mem_map.mp hmem
          exact (ih (seen ++ [postKey p])).1 q hq
            (List.mem_append_right _ (by simp [hqk]))

/-- The seen set returned by a dedup round is the incoming set extended by
the kept posts' keys, in order. -/
theorem dedup_seen_append (posts : List ApifyPost) :
    ∀ seen, (dedupFilter seen posts).2
      = seen ++ ((dedupFilter seen posts).1.map postKey) := by
  induction posts with
  | nil => intro seen; simp [dedupFilter]
  | cons p rest ih =>
      intro seen
      by_cases hk : postKey p ∈ seen
      · simp only [dedupFilter, if_pos hk]
        exact ih seen
      · simp only [dedupFilter, if_neg hk]
        rw [ih (seen ++ [postKey p])]
        simp

/-- A fetched post that is not kept was dropped because its key was already
seen, or because an earlier kept post carries the same key. -/
theorem dedup_dropped_reason (posts : List ApifyPost) :
    ∀ seen, ∀ p ∈ posts, p ∉ (dedupFilter seen posts).1 →
      postKey p ∈ seen ∨ ∃ q ∈ (dedupFilter seen posts).1, postKey q = postKey p := by
  induction posts with
  | nil => intro seen p hp; exact absurd hp (List.not_mem_nil p)
  | cons hd rest ih =>
      intro seen p hp hnk
      by_cases hk : postKey hd ∈ seen
      · simp only [dedupFilter, if_pos hk] at hnk ⊢
        rcases List.mem_cons.mp hp with hp | hp
        · left; rw [hp]; exact hk
        · exact ih seen p hp hnk
      · simp only [dedupFilter, if_neg hk] at hnk ⊢
        rcases List.mem_cons.mp hp with hp | hp
        · exact absurd (hp ▸ List.mem_cons_self hd _) hnk
        · have hnk' : p ∉ (dedupFilter (seen ++ [postKey hd]) rest).1 := fun hm =>
            hnk (List.mem_cons_of_mem hd hm)
          rcases ih (seen ++ [postKey hd]) p hp hnk' with hin | ⟨q, hq, hqk⟩
          · rcases List.mem_append.mp hin with hin | hin
            · exact Or.inl hin
            · refine Or.inr ⟨hd, List.mem_cons_self hd _, ?_⟩
              exact (List.mem_singleton.mp hin).symm
          · exact Or.inr ⟨q, List.mem_cons_of_mem hd hq, hqk⟩

/-- Claim C4 (amended): the dedup key of a fetched post is its ID when
truthy, else its URL when truthy, else a 50-character prefix of its
extracted text (the postKey definition), and within a round the kept posts
are a sublist of the fetched posts whose keys avoid the running seen set and
repeat no key; a dropped post's key was in the seen set or is carried by an
earlier kept post; the seen set grows by exactly the kept keys. -/
theorem dedup_discards_seen_keys (seen : List String) (posts : List ApifyPost) :
    List.Sublist (dedupFilter seen posts).1 posts ∧
    (∀ p ∈ (dedupFilter seen posts).1, postKey p ∉ seen) ∧
    ((dedupFilter seen posts).1.map postKey).Nodup ∧
    (dedupFilter seen posts).2 = seen ++ ((dedupFilter seen posts).1.map postKey) ∧
    (∀ p ∈ posts, p ∉ (dedupFilter seen posts).1 →
      postKey p ∈ seen ∨ ∃ q ∈ (dedupFilter seen posts).1, postKey q = postKey p) :=
  ⟨dedup_kept_sublist posts seen, (dedup_kept_keys_fresh posts seen).1,
    (dedup_kept_keys_fresh posts seen).2, dedup_seen_append posts seen,
    dedup_dropped_reason posts seen⟩

/-- Claim C4 (amended) witness: the dropped-post conjunct applied to a
concrete duplicate-key post. -/
theorem dedup_discards_seen_keys_witness :
    postKey dupA2 ∈ ([] : List String) ∨
      ∃ q ∈ (dedupFilter [] [dupA, dupA2]).1, postKey q = postKey dupA2 :=
  (dedup_discards_seen_keys [] [dupA, dupA2]).2.2.2.2 dupA2 (by decide) (by decide)

/-- Collecting settled results never decreases the saved count and never
pushes it past the (integer) target, nor below where it started. -/
theorem collectResults_bound (target : Int) (rs : List Bool) :
    ∀ saved : Nat, saved ≤ collectResults target rs saved ∧
      (collectResults target rs saved : Int) ≤ max target (saved : Int) := by
  induction rs with
  | nil =>
      intro saved
      exact ⟨le_refl _, le_max_right _ _⟩
  | cons r rest ih =>
      intro saved
      simp only [collectResults]
      by_cases hc : (r && decide ((saved : Int) < target)) = true
      · rw [if_pos hc]
        have hc' : r = true ∧ (saved : Int) < target := by simpa using hc
        have hlt : (saved : Int) < target := hc'.2
        have h1 := ih (saved + 1)
        constructor
        · omega
        · have := h1.2
          push_cast at this ⊢
          omega
      · rw [if_neg hc]
        exact ih saved

/-- The buffer loop runs at most one round per oracle entry and its saved
count never exceeds the maximum of the target and its starting value. -/
theorem bufferLoop_bound (cfg : Bool) (target : Int) (os : List RoundOracle) :
    ∀ st : WfState,
      ((bufferLoop cfg target os st).saved : Int) ≤ max target (st.saved : Int) ∧
      (bufferLoop cfg target os st).rounds ≤ st.rounds + os.length := by
  induction os with
  | nil =>
      intro st
      exact ⟨le_max_right _ _, by simp [bufferLoop]⟩
  | cons o rest ih =>
      intro st
      simp only [bufferLoop]
      split
      · refine ⟨le_max_right _ _, ?_⟩
        simp only [List.length_cons]
        omega
      · split
        · refine ⟨le_max_right _ _, ?_⟩
          simp only [List.length_cons]
          omega
        · split
          · have h := ih ⟨st.saved, (dedupFilter st.seen o.fetched).2, st.rounds + 1⟩
            refine ⟨h.1, ?_⟩
            have h2 : (bufferLoop cfg target rest
                ⟨st.saved, (dedupFilter st.seen o.fetched).2, st.rounds + 1⟩).rounds
                ≤ st.rounds + 1 + rest.length := h.2
            simp only [List.length_cons]
            omega
          · have hcoll : (collectResults target (roundResults cfg target o st)
                (st.saved) : Int) ≤ max target (st.saved : Int) :=
              (collectResults_bound target (roundResults cfg target o st) st.saved).2
            have h := ih ⟨collectResults target (roundResults cfg target o st) st.saved,
              (dedupFilter st.seen o.fetched).2, st.rounds + 1⟩
            refine ⟨?_, ?_⟩
            · have h1 : ((bufferLoop cfg target rest
                  ⟨collectResults target (roundResults cfg target o st) st.saved,
                    (dedupFilter st.seen o.fetched).2, st.rounds + 1⟩).saved : Int)
                  ≤ max target
                    ((collectResults target (roundResults cfg target o st) st.saved : Nat)
                      : Int) := h.1
              omega
            · have h2 : (bufferLoop cfg target rest
                  ⟨collectResults target (roundResults cfg target o st) st.saved,
                    (dedupFilter st.seen o.fetched).2, st.rounds + 1⟩).rounds
                  ≤ st.rounds + 1 + rest.length := h.2
              simp only [List.length_cons]
              omega

/-- An oracle for a round in which the scraper returns one meaningful post
and the generate chain always fulfills. -/
def fullOracle : RoundOracle := ⟨[mkPost "p0"], .failure, fun _ => true⟩

/-- Claim C2 counterexample: the claim fails at a requested count of 0 -
Number(0) is falsy, so the effective target becomes 1 and a run whose first
round yields one viable candidate saves 1 result, exceeding the requested
count of 0. -/
theorem workflow_saved_exceeds_zero_count_counterexample :
    (executeWorkflowCore false (some 0) fullOracle fullOracle).saved = 1 ∧
      targetCount (some 0) = 1 ∧
      ¬ (((executeWorkflowCore false (some 0) fullOracle fullOracle).saved : Int) ≤ 0) := by
  refine ⟨by decide, by decide, by decide⟩

/-- Claim C2 (amended): the buffer loop of executeWorkflowCore enters its
body at most MAX_ROUNDS times and the saved-result count never exceeds the
effective target max(targetCount, 0) - hence never exceeds a requested count
of at least 1; a requested count of 0 (or a non-numeric count) is falsy and
becomes target 1, so such a run saves at most one result, which can exceed
the requested 0. -/
theorem workflow_rounds_and_saved_bound (cfg : Bool) (count : Option Int)
    (o1 o2 : RoundOracle) :
    (executeWorkflowCore cfg count o1 o2).rounds ≤ MAX_ROUNDS ∧
    ((executeWorkflowCore cfg count o1 o2).saved : Int) ≤ max (targetCount count) 0 ∧
    (∀ c : Int, count = some c → 1 ≤ c →
      ((executeWorkflowCore cfg count o1 o2).saved : Int) ≤ c) ∧
    (count = some 0 ∨ count = none →
      (executeWorkflowCore cfg count o1 o2).saved ≤ 1) := by
  have h := bufferLoop_bound cfg (targetCount count) [o1, o2] ⟨0, [], 0⟩
  refine ⟨?_, ?_, ?_, ?_⟩
  · have h2 := h.2
    simp only [executeWorkflowCore, MAX_ROUNDS]
    simpa using h2
  · have h1 := h.1
    simp only [executeWorkflowCore]
    simpa using h1
  · intro c hc hge
    have h1 := h.1
    have htc : targetCount count ≤ c := by
      rw [hc]
      simp only [targetCount]
      split
      · omega
      · omega
    simp only [executeWorkflowCore]
    push_cast at h1 ⊢
    omega
  · intro hzc
    have h1 := h.1
    have ht : targetCount count = 1 := by
      rcases hzc with h0 | h0 <;> simp [h0, targetCount]
    rw [ht] at h1
    simp only [executeWorkflowCore]
    rw [ht]
    push_cast at h1 ⊢
    omega

/-- An oracle for a round in which the scraper returns nothing. -/
def emptyOracle : RoundOracle := ⟨[], .failure, fun _ => false⟩

/-- Claim C2 (amended) witness: the theorem applied at a concrete count of 3
with empty fetch rounds, and its zero-count conjunct at the counterexample
input. -/
theorem workflow_rounds_and_saved_bound_witness :
    ((executeWorkflowCore true (some 3) emptyOracle emptyOracle).saved : Int) ≤ 3 ∧
      (executeWorkflowCore false (some 0) fullOracle fullOracle).saved ≤ 1 :=
  ⟨(workflow_rounds_and_saved_bound true (some 3) emptyOracle emptyOracle).2.2.1 3 rfl
      (by norm_num),
    (workflow_rounds_and_saved_bound false (some 0) fullOracle fullOracle).2.2.2
      (Or.inl rfl)⟩

/-- The effective target never exceeds 10. -/
theorem targetCount_le_ten (count : Option Int) : targetCount count ≤ 10 := by
  cases count with
  | none => decide
  | some c =>
      simp only [targetCount]
      split
      · omega
      · omega

/-- Claim C9 counterexample: a negative requested count is not treated as 1 -
Math.min(Number(-5) || 1, 10) yields -5, outside the claimed 1..10 range. -/
theorem target_clamp_counterexample :
    targetCount (some (-5)) = -5 ∧ ¬ (1 ≤ targetCount (some (-5))) := by
  decide

/-- Claim C9 (amended): a non-numeric or zero requested count is treated
as 1 and a count of at least 1 is clamped to min count 10, but a negative
count is passed through unclamped - the run then saves nothing since the
loop stops immediately; in every case a run saves at most 10 posts, while
the schedule-configuration endpoint accepts per-run counts up to 20. -/
theorem workflow_effective_target (cfg : Bool) (o1 o2 : RoundOracle)
    (count : Option Int) (c : Int) :
    targetCount none = 1 ∧
    targetCount (some 0) = 1 ∧
    (1 ≤ c → targetCount (some c) = min c 10) ∧
    (c < 0 → targetCount (some c) = c ∧
      (executeWorkflowCore cfg (some c) o1 o2).saved = 0) ∧
    ((executeWorkflowCore cfg count o1 o2).saved : Int) ≤ 10 ∧
    scheduleCountClamp 20 = 20 := by
  refine ⟨rfl, by decide, ?_, ?_, ?_, by decide⟩
  · intro h1
    simp only [targetCount]
    rw [if_neg (by omega)]
  · intro hneg
    have ht : targetCount (some c) = c := by
      simp only [targetCount]
      rw [if_neg (by omega)]
      omega
    refine ⟨ht, ?_⟩
    show (bufferLoop cfg (targetCount (some c)) [o1, o2] ⟨0, [], 0⟩).saved = 0
    rw [ht]
    simp only [bufferLoop]
    rw [if_pos (by push_cast; omega)]
  · have h := (bufferLoop_bound cfg (targetCount count) [o1, o2] ⟨0, [], 0⟩).1
    have h10 := targetCount_le_ten count
    simp only [executeWorkflowCore]
    push_cast at h ⊢
    omega

/-- Claim C9 (amended) witness: the negative-count conjunct applied at the
concrete count -5. -/
theorem workflow_effective_target_witness :
    targetCount (some (-5)) = -5 ∧
      (executeWorkflowCore true (some (-5)) emptyOracle emptyOracle).saved = 0 :=
  (workflow_effective_target true emptyOracle emptyOracle (some (-5)) (-5)).2.2.2.1
    (by norm_num)

/-- Claim C6: whenever the Rewriter's model call fails - the OpenAI client
is unconfigured or the call throws - regeneratePost returns the original
cleaned text unchanged. -/
theorem rewriter_falls_back_to_original (cfg : Bool) (call : Except Unit (Option String))
    (struct original instructions : String)
    (h : cfg = false ∨ call = Except.error ()) :
    regeneratePost cfg call struct original instructions = original := by
  rcases h with h | h
  · rw [h]
    rfl
  · rw [h]
    cases cfg with
    | false => rfl
    | true => rfl

/-- Claim C6 witness: the theorem applied with an unconfigured client and,
separately exercised target, a concrete original text. -/
theorem rewriter_falls_back_to_original_witness :
    regeneratePost false (Except.ok (some "brand new post")) "{}" "orig text" "" = "orig text" :=
  rewriter_falls_back_to_original false (Except.ok (some "brand new post")) "{}"
    "orig text" "" (Or.inl rfl)

/-- Claim C7: per schedule, when an execution record within the last rolling
hour exists the cron body changes nothing and performs no action (skipped
without invoking the Orchestrator); when the hour matches and no recent
record exists, exactly one pending record timestamped now is created and the
action trace creates it before running the workflow; and re-processing the
same schedule at any time up to one hour later changes nothing and runs
nothing - at most one execution record per schedule per rolling hour. -/
theorem cron_hourly_dedup (execs : List ExecRecord) (s : ScheduleRow)
    (now now' : Int) (h h' : Nat) :
    (hasRecentExecution execs s.schedId now = true →
        processSchedule now h execs s = (execs, [])) ∧
    (s.timeHour = h → hasRecentExecution execs s.schedId now = false →
        processSchedule now h execs s
          = (execs ++ [⟨s.schedId, now, true⟩],
              [.insertedPending, .ranWorkflow, .updatedRecord, .updatedSchedule])) ∧
    (s.timeHour = h → hasRecentExecution execs s.schedId now = false →
        now' ≤ now + HOUR_MS →
        processSchedule now' h' (processSchedule now h execs s).1 s
          = ((processSchedule now h execs s).1, [])) := by
  refine ⟨?_, ?_, ?_⟩
  · intro hrec
    unfold processSchedule
    by_cases hh : s.timeHour ≠ h
    · rw [if_pos hh]
    · rw [if_neg hh, if_pos hrec]
  · intro hh hrec
    unfold processSchedule
    rw [if_neg (fun hne => hne hh), if_neg (by simp [hrec])]
  · intro hh hrec hlt
    have hstep : processSchedule now h execs s
        = (execs ++ [⟨s.schedId, now, true⟩],
            [.insertedPending, .ranWorkflow, .updatedRecord, .updatedSchedule]) := by
      unfold processSchedule
      rw [if_neg (fun hne => hne hh), if_neg (by simp [hrec])]
    rw [hstep]
    have hfound : hasRecentExecution (execs ++ [⟨s.schedId, now, true⟩]) s.schedId now'
        = true := by
      simp only [hasRecentExecution, List.any_eq_true]
      refine ⟨⟨s.schedId, now, true⟩, List.mem_append_right _ (List.mem_singleton_self _), ?_⟩
      simp only [beq_self_eq_true, Bool.true_and, decide_eq_true_eq]
      omega
    unfold processSchedule
    by_cases hh2 : s.timeHour ≠ h'
    · rw [if_pos hh2]
    · rw [if_neg hh2, if_pos hfound]

/-- Claim C7 witness: a concrete first trigger creating one pending record. -/
theorem cron_hourly_dedup_witness :
    processSchedule 0 9 [] ⟨1, 9⟩
      = ([⟨1, 0, true⟩],
          [.insertedPending, .ranWorkflow, .updatedRecord, .updatedSchedule]) :=
  (cron_hourly_dedup [] ⟨1, 9⟩ 0 0 9 9).2.1 rfl (by decide)

/-- Claim C8: a GET /api/cron request whose Authorization header does not
carry the configured (non-empty) bearer secret is answered with the
unauthorized outcome and the execution store is untouched - no schedule is
checked. -/
theorem cron_unauthorized_before_schedule_checks (s : String)
    (authHeader : Option String) (adminCfg : Bool) (schedules : List ScheduleRow)
    (execs : List ExecRecord) (now : Int) (hourOf : ScheduleRow → Nat)
    (hs : s ≠ "") (hh : authHeader ≠ some ("Bearer " ++ s)) :
    cronHandler (some s) authHeader adminCfg schedules execs now hourOf
      = (.unauthorized, execs) := by
  have hrej : cronAuthRejects (some s) authHeader = true := by
    show (if s = "" then false else decide (authHeader ≠ some ("Bearer " ++ s))) = true
    rw [if_neg hs]
    exact decide_eq_true hh
  unfold cronHandler
  rw [if_pos hrej]

/-- Claim C8 witness: a concrete request with a wrong bearer token. -/
theorem cron_unauthorized_before_schedule_checks_witness :
    cronHandler (some "sek") (some "Bearer wrong") true [⟨1, 9⟩] [] 0 (fun _ => 9)
      = (.unauthorized, []) :=
  cron_unauthorized_before_schedule_checks "sek" (some "Bearer wrong") true [⟨1, 9⟩] [] 0
    (fun _ => 9) (by decide) (by decide)
